import Mathlib

/-!
Verification of the presenter identity-resolution pipeline of the
shipping-forecast recorder (sources: `kiwi_recorder.py`,
`analyze_archive.py`, `build_voiceprint_database.py`,
`speaker_recognition.py`).

Pure functions of the Python source are embedded as Lean functions;
Python floats are modelled as exact rationals (`ℚ`) where no square root
occurs and as reals (`ℝ`) where `numpy` norms are involved; Python dicts
holding results are modelled as structures; external calls (subprocess,
network, filesystem, the LLM API) are modelled by explicit outcome
values passed in, one constructor per outcome the Python code
distinguishes.
-/

set_option maxRecDepth 100000

namespace ShippingForecast

/-! ### difflib.SequenceMatcher
`fuzzy_match_presenter` (kiwi_recorder.py:246) scores names with
`difflib.SequenceMatcher(None, a, b).ratio()`.  The model below follows
difflib's algorithm for strings short enough that the autojunk
heuristic is inert (it only activates when `b` has ≥ 200 characters;
every name compared here is far shorter): `find_longest_match` is the
dynamic program over runs of equal characters, preferring strictly
longer runs, then earlier start in `a`, then earlier start in `b`;
`ratio` is `2*M/T` where `M` sums the sizes of the recursively chosen
matching blocks and `T` is the total length (difflib returns 1.0 when
both strings are empty). -/

/-- One row of the `j2len` dynamic program of
`SequenceMatcher.find_longest_match`: walking `b` and the previous row
together, the entry for position `j` is `prev[j-1] + 1` when
`b[j] = c`, else `0` (`carry` is `prev[j-1]`). -/
def flmRow (c : Char) : List Char → List Nat → Nat → List Nat
  | bj :: bs, pj :: ps, carry =>
      (if bj == c then carry + 1 else 0) :: flmRow c bs ps pj
  | _, _, _ => []

/-- Fold difflib's `k > bestsize` update over one row: strictly longer
runs win, ties keep the earlier candidate. `i` and `j` are 0-based
positions; a run of length `k` ending at `(i, j)` starts at
`(i + 1 - k, j + 1 - k)`. -/
def bestInRow (i : Nat) : List Nat → Nat → Nat × Nat × Nat → Nat × Nat × Nat
  | [], _, best => best
  | k :: ks, j, best =>
      bestInRow i ks (j + 1)
        (if best.2.2 < k then (i + 1 - k, j + 1 - k, k) else best)

/-- Row-by-row loop of `find_longest_match` over the characters of `a`. -/
def flmGo (b : List Char) : List Char → Nat → List Nat → Nat × Nat × Nat →
    Nat × Nat × Nat
  | [], _, _, best => best
  | ai :: arest, i, prev, best =>
      let row := flmRow ai b prev 0
      flmGo b arest (i + 1) row (bestInRow i row 0 best)

/-- `SequenceMatcher.find_longest_match` over whole lists (junk-free
case): returns `(besti, bestj, bestsize)`, initialised to `(0, 0, 0)`
exactly as difflib initialises `(alo, blo, 0)`. -/
def find_longest_match (a b : List Char) : Nat × Nat × Nat :=
  flmGo b a 0 (List.replicate b.length 0) (0, 0, 0)

/-- Total number of matched characters over the matching blocks chosen
by `SequenceMatcher.get_matching_blocks`: take the longest match, then
recurse on the pieces left and right of it.  `fuel` dominates the
recursion depth (each recursive call strictly shrinks `a`). -/
def matchTotal : Nat → List Char → List Char → Nat
  | 0, _, _ => 0
  | fuel + 1, a, b =>
      let m := find_longest_match a b
      if m.2.2 = 0 then 0
      else
        matchTotal fuel (a.take m.1) (b.take m.2.1) + m.2.2 +
          matchTotal fuel (a.drop (m.1 + m.2.2)) (b.drop (m.2.1 + m.2.2))

/-- `difflib.SequenceMatcher(None, s, t).ratio()` as an exact rational:
`2*M/T` with `T` the summed lengths, and `1` when both are empty.
Stated via `mkRat` so that the kernel can evaluate it;
`ratio_eq_div` below proves it equal to the literal `2.0 * matches /
length` expression of difflib. -/
def ratio (s t : String) : ℚ :=
  let a := s.data
  let b := t.data
  if a.length + b.length = 0 then 1
  else mkRat (2 * matchTotal (a.length + 1) a b) (a.length + b.length)

/-- The `mkRat` form of `ratio` agrees with difflib's
`2.0 * matches / length` division. -/
theorem ratio_eq_div (s t : String) :
    ratio s t =
      if s.data.length + t.data.length = 0 then 1
      else (2 * (matchTotal (s.data.length + 1) s.data t.data) : ℚ) /
        (s.data.length + t.data.length) := by
  simp only [ratio]
  split
  · rfl
  · rw [Rat.mkRat_eq_div]
    push_cast
    ring

/-! ### Python string primitives
The names handled by this pipeline are ASCII, for which Python's
`str.lower()` / `str.upper()` are the per-character case maps and
`str.strip()` removes leading/trailing whitespace.  They are modelled
at the character-list level. -/

/-- Python `str.lower()` (per-character lowering; ASCII inputs). -/
def pyLower (s : String) : String :=
  ⟨s.data.map Char.toLower⟩

/-- Python `str.upper()` (per-character uppering; ASCII inputs). -/
def pyUpper (s : String) : String :=
  ⟨s.data.map Char.toUpper⟩

/-- Python `str.strip()`: whitespace dropped from both ends. -/
def pyStrip (s : String) : String :=
  ⟨((s.data.dropWhile Char.isWhitespace).reverse.dropWhile
      Char.isWhitespace).reverse⟩

/-! ### Presenter directory and text matching (kiwi_recorder.py) -/

/-- One entry of `presenters.json` (`load_presenters`,
kiwi_recorder.py:221): canonical name plus accepted variations. -/
structure PresenterRec where
  name : String
  variations : List String
deriving DecidableEq, Repr

/-- Return value of `fuzzy_match_presenter`: the matched canonical
name, the confidence, and the match-type string. -/
structure TMatch where
  name : String
  confidence : ℚ
  match_type : String
deriving DecidableEq, Repr

/-- `fuzzy_match_presenter(name, known_presenters, threshold)`
(kiwi_recorder.py:246): per presenter, in directory order, test
case-insensitive exact equality with the canonical name, then with each
variation, then the `SequenceMatcher` ratio against the canonical name,
then against each variation; the first test that succeeds returns. -/
def fuzzy_match_presenter (name : String) (ps : List PresenterRec)
    (threshold : ℚ) : Option TMatch :=
  let name_lower := pyStrip (pyLower name)
  go name_lower ps
where
  /-- The `for presenter in known_presenters` loop. -/
  go (name_lower : String) : List PresenterRec → Option TMatch
    | [] => none
    | p :: rest =>
      if name_lower == pyLower p.name then
        some ⟨p.name, 1, "exact"⟩
      else if p.variations.any (fun v => name_lower == pyLower v) then
        some ⟨p.name, 1, "variation"⟩
      else
        let r := ratio name_lower (pyLower p.name)
        if threshold ≤ r then
          some ⟨p.name, r, "fuzzy"⟩
        else
          match p.variations.findSome? (fun v =>
              let rv := ratio name_lower (pyLower v)
              if threshold ≤ rv then some (⟨p.name, rv, "fuzzy_variation"⟩ : TMatch)
              else none) with
          | some m => some m
          | none => go name_lower rest

/-- Result dict of `parse_presenter_from_transcript`
(kiwi_recorder.py:280). -/
structure PResult where
  presenter : Option String
  raw_match : Option String
  confidence : ℚ
  match_type : String
deriving DecidableEq, Repr

/-- The `for candidate in candidates` loop of
`parse_presenter_from_transcript`: first candidate that
`fuzzy_match_presenter` accepts wins, returned with the candidate it
matched.  `mkRat 7 10` is the default `threshold=0.7` of
`fuzzy_match_presenter`. -/
def matchLoop (ps : List PresenterRec) : List String → Option (String × TMatch)
  | [] => none
  | c :: cs =>
      match fuzzy_match_presenter c ps (mkRat 7 10) with
      | some m => some (c, m)
      | none => matchLoop ps cs

/-- `parse_presenter_from_transcript` (kiwi_recorder.py:280) after
candidate extraction: the regex extractor is an input boundary here, so
the function takes the extracted candidate list directly.  No
candidates ⇒ `no_match`; no candidate matched ⇒ `unknown` carrying the
first candidate; otherwise the first successful match. -/
def parse_presenter_from_candidates (candidates : List String)
    (ps : List PresenterRec) : PResult :=
  match candidates with
  | [] => ⟨none, none, 0, "no_match"⟩
  | c0 :: _ =>
      match matchLoop ps candidates with
      | some (c, m) => ⟨some m.name, some c, m.confidence, m.match_type⟩
      | none => ⟨none, some c0, 0, "unknown"⟩

/-! ### LLM validation and presenter detection (kiwi_recorder.py)
`detect_presenter` (kiwi_recorder.py:394) drives external processes
(ffprobe, ffmpeg, scp, ssh transcription), parses the JSON reply,
runs text matching, optionally escalates to the LLM, and removes its
temp file; every failure is caught inside the function.  The external
world is modelled by explicit outcome values: one constructor per
outcome the Python code distinguishes. -/

/-- Relevant flags of the `Config` class (kiwi_recorder.py:50). -/
structure Config where
  DETECT_PRESENTER : Bool
  LLM_VALIDATE_PRESENTER : Bool
deriving DecidableEq, Repr

/-- Outcomes of `validate_presenter_with_llm` (kiwi_recorder.py:321)
before its verification logic runs: the `anthropic` package may be
missing, the API key may be unset, the API call may raise, or a
response text arrives. -/
inductive LlmOutcome where
  | noPackage
  | noApiKey
  | apiError
  | response (text : String)
deriving DecidableEq, Repr

/-- `validate_presenter_with_llm` (kiwi_recorder.py:321): `None` when
validation is disabled, the package or key is missing, or the call
fails; on a response, strip it, treat the `UNKNOWN` sentinel
(case-insensitively, via `response.upper() == "UNKNOWN"`) as `None`,
and otherwise accept only a response that case-insensitively equals a
canonical directory name, returning that canonical name. -/
def validate_presenter_with_llm (cfg : Config) (outcome : LlmOutcome)
    (ps : List PresenterRec) : Option String :=
  if !cfg.LLM_VALIDATE_PRESENTER then none
  else
    match outcome with
    | .noPackage => none
    | .noApiKey => none
    | .apiError => none
    | .response t =>
        let resp := pyStrip t
        if resp == "UNKNOWN" || pyUpper resp == "UNKNOWN" then none
        else
          match ps.find? (fun p => pyLower resp == pyLower p.name) with
          | some p => some p.name
          | none => none

/-- Python truthiness of the `result["raw_match"]` value: `None` and
the empty string are falsy. -/
def truthyOpt : Option String → Bool
  | none => false
  | some s => !(s == "")

/-- The `needs_validation` condition computed in `detect_presenter`
(kiwi_recorder.py:468): unknown match, or a fuzzy/fuzzy-variation
match with confidence below 0.85 (`mkRat 85 100`). -/
def needs_validation (pr : PResult) : Bool :=
  pr.match_type == "unknown" ||
    ((pr.match_type == "fuzzy" || pr.match_type == "fuzzy_variation") &&
      pr.confidence < mkRat 85 100)

/-- Exceptions the `except` clauses of `detect_presenter` distinguish. -/
inductive PyExc where
  | timeoutExpired
  | calledProcessError
  | jsonDecodeError
  | otherError
deriving DecidableEq, Repr

/-- `match_type` string each `except` handler records
(kiwi_recorder.py:502). -/
def matchTypeOfExc : PyExc → String
  | .timeoutExpired => "timeout"
  | .calledProcessError => "command_error"
  | .jsonDecodeError => "parse_error"
  | .otherError => "error"

/-- Outcome of the pipeline from `ffprobe` up to parsing the
transcription JSON: an exception somewhere in those steps, a parsed
reply carrying an `"error"` key, or a parsed reply carrying text. -/
inductive TranscribeOutcome where
  | exc (e : PyExc)
  | errorResponse
  | ok (text : String)
deriving DecidableEq, Repr

/-- The external world of one `detect_presenter` run: the
transcription outcome, the candidate list the regex extractor produces
from the transcript (the extractor is the input boundary of this
model), the LLM outcome, and whether the final `os.unlink` of the temp
file raises. -/
structure DetectEnv where
  transcribe : TranscribeOutcome
  candidates : List String
  llm : LlmOutcome
  unlinkFails : Bool
deriving DecidableEq, Repr

/-- The result dict of `detect_presenter`, initialised to
`{presenter: None, raw_match: None, confidence: 0.0, match_type:
"error", transcript: None}`. -/
structure DetectResult where
  presenter : Option String
  raw_match : Option String
  confidence : ℚ
  match_type : String
  transcript : Option String
deriving DecidableEq, Repr

/-- `detect_presenter` (kiwi_recorder.py:394).  Disabled detection
returns the sentinel `disabled` record; an exception before the
transcript is parsed only overwrites `match_type` of the initial
record; an `"error"` JSON reply records `transcription_error`; on a
transcript, text matching fills the result, the LLM is consulted
exactly when `needs_validation` holds and `raw_match` is truthy, an
accepted LLM name overwrites presenter/match_type/confidence (0.9 =
`mkRat 9 10`), and a failing final `os.unlink` is caught by the
catch-all handler, which only overwrites `match_type` with `"error"`. -/
def detect_presenter (cfg : Config) (ps : List PresenterRec)
    (env : DetectEnv) : DetectResult :=
  let r0 : DetectResult := ⟨none, none, 0, "error", none⟩
  if !cfg.DETECT_PRESENTER then { r0 with match_type := "disabled" }
  else
    match env.transcribe with
    | .exc e => { r0 with match_type := matchTypeOfExc e }
    | .errorResponse => { r0 with match_type := "transcription_error" }
    | .ok t =>
        let pr := parse_presenter_from_candidates env.candidates ps
        let r2 : DetectResult :=
          ⟨pr.presenter, pr.raw_match, pr.confidence, pr.match_type, some t⟩
        let r3 :=
          if needs_validation pr && truthyOpt pr.raw_match then
            match validate_presenter_with_llm cfg env.llm ps with
            | some v =>
                { r2 with
                  presenter := some v
                  match_type := "llm_validated"
                  confidence := mkRat 9 10 }
            | none => r2
          else r2
        if env.unlinkFails then { r3 with match_type := "error" } else r3

/-- The intermediate result of `detect_presenter` just after
`result.update(presenter_result)` (kiwi_recorder.py:466): the text
matcher's four fields plus the transcript. -/
def textMatchResult (ps : List PresenterRec) (cands : List String)
    (t : String) : DetectResult :=
  let pr := parse_presenter_from_candidates cands ps
  ⟨pr.presenter, pr.raw_match, pr.confidence, pr.match_type, some t⟩

/-! ### Suitability for training (analyze_archive.py) -/

/-- The `suitable_for_training` flag `analyze_single_recording`
derives (analyze_archive.py:157): presenter present, confidence at
least 0.8 (`mkRat 8 10`), and match type in
`("exact", "variation", "llm_validated")`. -/
def suitable_for_training (presenter : Option String) (confidence : ℚ)
    (match_type : String) : Bool :=
  presenter.isSome && mkRat 8 10 ≤ confidence &&
    (match_type == "exact" || match_type == "variation" ||
      match_type == "llm_validated")

/-! ### Training-set curation (build_voiceprint_database.py) -/

/-- One entry of `presenter_labels.json`'s `results` list as
`filter_suitable_recordings` (build_voiceprint_database.py:49) reads
it: the resolved presenter (possibly absent), the
`suitable_for_training` flag, and the ISO timestamp string the entries
are sorted by (`x.get("timestamp", "")`). -/
structure LabeledRec where
  presenter : Option String
  suitable : Bool
  timestamp : String
deriving DecidableEq, Repr

/-- The grouping step of `filter_suitable_recordings`: the entries that
land in presenter `p`'s group, i.e. those whose
`suitable_for_training` value is truthy and whose `presenter` value is
truthy and equal to `p` (order preserved). -/
def eligibleFor (results : List LabeledRec) (p : String) : List LabeledRec :=
  results.filter (fun r =>
    r.suitable &&
      match r.presenter with
      | some q => !(q == "") && q == p
      | none => false)

/-- Presenter `p`'s curated list from `filter_suitable_recordings`
(build_voiceprint_database.py:49): the group's entries sorted by
timestamp descending (Python's stable `sort(key=..., reverse=True)`;
ISO timestamp strings compare lexicographically) and truncated to
`max_samples`. -/
def filter_suitable_recordings (results : List LabeledRec)
    (max_samples : Nat) (p : String) : List LabeledRec :=
  ((eligibleFor results p).mergeSort
      (fun a b => b.timestamp ≤ a.timestamp)).take max_samples

/-! ### Embedding similarity (speaker_recognition.py,
build_voiceprint_database.py)
`numpy` float vectors are modelled as lists of reals; `np.linalg.norm`
is the square root of the sum of squares. -/

/-- `np.dot` of two vectors (componentwise product summed). -/
def dot (a b : List ℝ) : ℝ :=
  (List.zipWith (fun x y => x * y) a b).sum

/-- Sum of squares of a vector. -/
def sumSq (e : List ℝ) : ℝ :=
  (e.map (fun x => x * x)).sum

/-- `np.linalg.norm e`. -/
noncomputable def l2norm (e : List ℝ) : ℝ :=
  Real.sqrt (sumSq e)

/-- `cosine_similarity` of speaker_recognition.py:129: each vector is
divided by its norm plus `1e-8`, the normalised vectors are dotted, and
the result is clamped into `[0, 1]` by
`float(max(0.0, min(1.0, similarity)))`. -/
noncomputable def cosine_similarity (e1 e2 : List ℝ) : ℝ :=
  let n1 := e1.map (fun x => x / (l2norm e1 + 1 / 10 ^ 8))
  let n2 := e2.map (fun x => x / (l2norm e2 + 1 / 10 ^ 8))
  max 0 (min 1 (dot n1 n2))

/-- The inner `cosine_similarity` helper of `validate_database`
(build_voiceprint_database.py:233): `np.dot(e1, e2) /
(np.linalg.norm(e1) * np.linalg.norm(e2) + 1e-8)` — no clamping. -/
noncomputable def validateCosine (e1 e2 : List ℝ) : ℝ :=
  dot e1 e2 / (l2norm e1 * l2norm e2 + 1 / 10 ^ 8)

/-- Python `max` over a nonempty list (`0.0` stands in for the
empty-list branch the call sites guard against). -/
def listMax : List ℝ → ℝ
  | [] => 0
  | x :: xs => xs.foldl max x

/-- Python `min` over a nonempty list. -/
def listMin : List ℝ → ℝ
  | [] => 0
  | x :: xs => xs.foldl min x

/-- `np.mean` of a list: sum divided by length. -/
noncomputable def listMean (l : List ℝ) : ℝ :=
  l.sum / l.length

/-- `np.std`: population standard deviation. -/
noncomputable def listStd (l : List ℝ) : ℝ :=
  Real.sqrt (listMean (l.map (fun x => (x - listMean l) ^ 2)))

/-- Python `round(x, 4)` to the nearest multiple of `1e-4`, ties to
even. -/
noncomputable def roundHalfEven (y : ℝ) : ℤ :=
  if y - ⌊y⌋ < 1 / 2 then ⌊y⌋
  else if 1 / 2 < y - ⌊y⌋ then ⌊y⌋ + 1
  else if Even ⌊y⌋ then ⌊y⌋ else ⌊y⌋ + 1

/-- `round(x, 4)` as used on the similarities reported by
`compare_against_database`. -/
noncomputable def pyRound4 (x : ℝ) : ℝ :=
  (roundHalfEven (x * 10 ^ 4) : ℝ) / 10 ^ 4

/-- One entry of the list `compare_against_database` returns. -/
structure BioMatch where
  name : String
  similarity : ℝ
  avg_similarity : ℝ
  num_references : ℕ
  rank : ℕ

/-- The `enumerate(matches, 1)` loop that stamps 1-based ranks onto the
sorted matches. -/
def addRanks : ℕ → List BioMatch → List BioMatch
  | _, [] => []
  | i, m :: ms => { m with rank := i } :: addRanks (i + 1) ms

/-- `compare_against_database` (speaker_recognition.py:176): per
presenter, the cosine similarities against every reference embedding,
their max (`best_similarity`, `0.0` when there are no references) and
mean, rounded to 4 places; the entries are then sorted by similarity
descending and ranked from 1. -/
noncomputable def compare_against_database (e : List ℝ)
    (db : List (String × List (List ℝ))) : List BioMatch :=
  let entries := db.map (fun entry =>
    let sims := entry.2.map (fun ref => cosine_similarity e ref)
    let best := if sims.isEmpty then 0 else listMax sims
    let avg := if sims.isEmpty then 0 else listMean sims
    ({ name := entry.1
       similarity := pyRound4 best
       avg_similarity := pyRound4 avg
       num_references := sims.length
       rank := 0 } : BioMatch))
  addRanks 1 (entries.mergeSort (fun a b => decide (b.similarity ≤ a.similarity)))

/-! ### Database validation (build_voiceprint_database.py:221) -/

/-- The `i < j` double loop over a list, in Python iteration order. -/
def unorderedPairs : List α → List (α × α)
  | [] => []
  | x :: xs => xs.map (fun y => (x, y)) ++ unorderedPairs xs

/-- All pairwise similarities within one presenter's embedding list. -/
noncomputable def pairwiseSims (embs : List (List ℝ)) : List ℝ :=
  (unorderedPairs embs).map (fun pr => validateCosine pr.1 pr.2)

/-- The per-presenter summary recorded under
`within_speaker_similarity`. -/
structure WithinStats where
  mean : ℝ
  std : ℝ
  simMin : ℝ
  simMax : ℝ
  count : ℕ

/-- The `within_speaker_similarity` loop of `validate_database`:
presenters with fewer than two embeddings are skipped (`continue`);
otherwise the pairwise similarities are summarised (the inner
`if similarities:` guard mirrored verbatim). -/
noncomputable def withinEntries :
    List (String × List (List ℝ)) → List (String × WithinStats)
  | [] => []
  | (p, embs) :: rest =>
      if embs.length < 2 then withinEntries rest
      else
        let sims := pairwiseSims embs
        if sims.isEmpty then withinEntries rest
        else
          (p, ⟨listMean sims, listStd sims, listMin sims, listMax sims,
            sims.length⟩) :: withinEntries rest

/-- The `between_speaker_similarity` double loop of
`validate_database`: for each unordered presenter pair whose embedding
lists are both nonempty, the similarity of their *first* embeddings,
labelled `"<p1> vs <p2>"`. -/
noncomputable def betweenEntries (db : List (String × List (List ℝ))) :
    List (String × ℝ) :=
  (unorderedPairs db).filterMap (fun pr =>
    match pr.1.2, pr.2.2 with
    | e1 :: _, e2 :: _ =>
        some (pr.1.1 ++ " vs " ++ pr.2.1, validateCosine e1 e2)
    | _, _ => none)

/-- The statistics dict `validate_database` returns (`between_*`
aggregate keys are present only when there was at least one pair). -/
structure ValidationStats where
  presenters : ℕ
  total_embeddings : ℕ
  within_speaker_similarity : List (String × WithinStats)
  between_speaker_similarity : List (String × ℝ)
  between_speaker_mean : Option ℝ
  between_speaker_std : Option ℝ

/-- `validate_database` (build_voiceprint_database.py:221). -/
noncomputable def validate_database
    (db : List (String × List (List ℝ))) : ValidationStats :=
  let between := betweenEntries db
  { presenters := db.length
    total_embeddings := (db.map (fun entry => entry.2.length)).sum
    within_speaker_similarity := withinEntries db
    between_speaker_similarity := between
    between_speaker_mean :=
      if between.isEmpty then none
      else some (listMean (between.map (fun entry => entry.2)))
    between_speaker_std :=
      if between.isEmpty then none
      else some (listStd (between.map (fun entry => entry.2))) }

/-! ## Theorems -/

/-- Numeral bridge: the clamp bound `0.7` in `mkRat` form. -/
theorem q710 : (7 : ℚ) / 10 = mkRat 7 10 := by
  rw [Rat.mkRat_eq_div]; norm_num

/-- Numeral bridge for the fuzzy confidence `18/19` of the C3 instance. -/
theorem q1819 : (18 : ℚ) / 19 = mkRat 18 19 := by
  rw [Rat.mkRat_eq_div]; norm_num

/-- Numeral bridge for the training threshold `0.8`. -/
theorem q810 : (8 : ℚ) / 10 = mkRat 8 10 := by
  rw [Rat.mkRat_eq_div]; norm_num

/-- Numeral bridge for the LLM confidence `0.9`. -/
theorem q910 : (9 : ℚ) / 10 = mkRat 9 10 := by
  rw [Rat.mkRat_eq_div]; norm_num

/-- Numeral bridge for the escalation threshold `0.85`. -/
theorem q85100 : (85 : ℚ) / 100 = mkRat 85 100 := by
  rw [Rat.mkRat_eq_div]; norm_num

/-- C1: `suitable_for_training` is true exactly when the presenter is
present, the confidence is at least 0.8, and the match type is one of
exact/variation/llm_validated; in particular fuzzy, fuzzy_variation,
biometric, unknown, no_match and error results are never suitable. -/
theorem C1_suitable_for_training_characterisation (p : Option String)
    (c : ℚ) (mt : String) :
    (suitable_for_training p c mt = true ↔
      p ≠ none ∧ (8 : ℚ) / 10 ≤ c ∧
        (mt = "exact" ∨ mt = "variation" ∨ mt = "llm_validated")) ∧
    suitable_for_training p c "fuzzy" = false ∧
    suitable_for_training p c "fuzzy_variation" = false ∧
    suitable_for_training p c "biometric" = false ∧
    suitable_for_training p c "unknown" = false ∧
    suitable_for_training p c "no_match" = false ∧
    suitable_for_training p c "error" = false := by
  refine ⟨?_, ?_, ?_, ?_, ?_, ?_, ?_⟩ <;>
    simp [suitable_for_training, q810, Option.isSome_iff_ne_none,
      and_assoc, or_assoc]

/-- C3: text matching returns the first success, not the best score:
with directory `[Zeb Soanes, Zeb Soans]` and the single candidate
`"Zeb Soans"`, the returned match is the fuzzy match on the *earlier*
presenter `"Zeb Soanes"` with confidence `18/19 < 1`, although the
*later* presenter's canonical name equals the candidate
case-insensitively and alone would have matched exactly with
confidence 1. -/
theorem C3_first_success_not_best_score :
    parse_presenter_from_candidates ["Zeb Soans"]
        [⟨"Zeb Soanes", []⟩, ⟨"Zeb Soans", []⟩] =
      ⟨some "Zeb Soanes", some "Zeb Soans", (18 : ℚ) / 19, "fuzzy"⟩ ∧
    (18 : ℚ) / 19 < 1 ∧
    pyLower (([(⟨"Zeb Soanes", []⟩ : PresenterRec),
        ⟨"Zeb Soans", []⟩].getD 1 ⟨"", []⟩).name) = pyLower "Zeb Soans" ∧
    fuzzy_match_presenter "Zeb Soans" [⟨"Zeb Soans", []⟩] ((7 : ℚ) / 10) =
      some ⟨"Zeb Soans", 1, "exact"⟩ := by
  refine ⟨?_, by norm_num, by decide, ?_⟩
  · rw [q1819]; decide
  · rw [q710]; decide

/-- The candidate loop returns nothing when no candidate matches. -/
theorem matchLoop_eq_none (ps : List PresenterRec) (l : List String)
    (h : ∀ c ∈ l, fuzzy_match_presenter c ps (mkRat 7 10) = none) :
    matchLoop ps l = none := by
  induction l with
  | nil => rfl
  | cons c cs ih =>
      simp only [matchLoop, h c (by simp)]
      exact ih (fun d hd => h d (by simp [hd]))

/-- C5: with no candidates, text matching reports `no_match` with no
raw match; with candidates none of which any presenter matches, it
reports `unknown` carrying the first candidate, confidence 0. -/
theorem C5_no_match_and_unknown_results (ps : List PresenterRec)
    (cands : List String) :
    (cands = [] → parse_presenter_from_candidates cands ps =
      ⟨none, none, 0, "no_match"⟩) ∧
    (∀ c0 cs, cands = c0 :: cs →
      (∀ c ∈ cands, fuzzy_match_presenter c ps ((7 : ℚ) / 10) = none) →
      parse_presenter_from_candidates cands ps =
        ⟨none, some c0, 0, "unknown"⟩) := by
  constructor
  · rintro rfl; rfl
  · rintro c0 cs rfl h
    rw [q710] at h
    simp [parse_presenter_from_candidates, matchLoop_eq_none ps _ h]

/-- Witness for C5 at a concrete directory and candidate list. -/
theorem C5_no_match_and_unknown_results_witness :
    parse_presenter_from_candidates ["Alice Smith"] [⟨"Zeb Soanes", []⟩] =
      ⟨none, some "Alice Smith", 0, "unknown"⟩ ∧
    parse_presenter_from_candidates [] [⟨"Zeb Soanes", []⟩] =
      ⟨none, none, 0, "no_match"⟩ :=
  ⟨(C5_no_match_and_unknown_results [⟨"Zeb Soanes", []⟩] ["Alice Smith"]).2
      "Alice Smith" [] rfl
      (by simp only [q710]; decide),
    (C5_no_match_and_unknown_results [⟨"Zeb Soanes", []⟩] []).1 rfl⟩

/-- C2 counterexample: a failure caught by the catch-all handler
*after* the transcript was parsed (the final `os.unlink` raising) gets
`match_type = "error"` but keeps the already-computed presenter and
confidence, contradicting the claim that every caught failure yields
presenter None and confidence 0. -/
theorem C2_counterexample_cleanup_failure :
    detect_presenter ⟨true, true⟩ [⟨"Zeb Soanes", []⟩]
        ⟨.ok "x", ["Zeb Soanes"], .noPackage, true⟩ =
      ⟨some "Zeb Soanes", some "Zeb Soanes", 1, "error", some "x"⟩ ∧
    (detect_presenter ⟨true, true⟩ [⟨"Zeb Soanes", []⟩]
        ⟨.ok "x", ["Zeb Soanes"], .noPackage, true⟩).match_type = "error" ∧
    (detect_presenter ⟨true, true⟩ [⟨"Zeb Soanes", []⟩]
        ⟨.ok "x", ["Zeb Soanes"], .noPackage, true⟩).presenter ≠ none := by
  decide

/-- C2 (amended): with detection enabled, any failure caught *before
the transcript is parsed* yields the well-formed record with presenter
None, confidence 0 and the corresponding match type
(timeout/command_error/parse_error/error via `matchTypeOfExc`, or
transcription_error for an error reply); a failure of the final
cleanup `os.unlink` after a successful parse yields the same record as
the failure-free run except that `match_type` is overwritten with
`"error"`. -/
theorem C2_failure_containment_amended (cfg : Config)
    (ps : List PresenterRec) (env : DetectEnv)
    (hd : cfg.DETECT_PRESENTER = true) :
    (∀ e, env.transcribe = .exc e →
      detect_presenter cfg ps env = ⟨none, none, 0, matchTypeOfExc e, none⟩) ∧
    (env.transcribe = .errorResponse →
      detect_presenter cfg ps env =
        ⟨none, none, 0, "transcription_error", none⟩) ∧
    (∀ t, env.transcribe = .ok t → env.unlinkFails = true →
      detect_presenter cfg ps env =
        { detect_presenter cfg ps ⟨.ok t, env.candidates, env.llm, false⟩ with
            match_type := "error" }) := by
  refine ⟨?_, ?_, ?_⟩
  · intro e he
    simp [detect_presenter, hd, he]
  · intro he
    simp [detect_presenter, hd, he]
  · intro t ht hu
    simp [detect_presenter, hd, ht, hu]

/-- Witness for C2 (amended): a concrete transcription timeout. -/
theorem C2_failure_containment_amended_witness :
    detect_presenter ⟨true, true⟩ []
        ⟨.exc .timeoutExpired, [], .noPackage, false⟩ =
      ⟨none, none, 0, "timeout", none⟩ :=
  (C2_failure_containment_amended ⟨true, true⟩ []
      ⟨.exc .timeoutExpired, [], .noPackage, false⟩ rfl).1 .timeoutExpired rfl

/-- A successful candidate-loop hit comes from a candidate of the list. -/
theorem matchLoop_some_mem (ps : List PresenterRec) (l : List String)
    (c : String) (m : TMatch) (h : matchLoop ps l = some (c, m)) :
    c ∈ l := by
  induction l with
  | nil => exact absurd h (by simp [matchLoop])
  | cons d ds ih =>
      simp only [matchLoop] at h
      cases hfm : fuzzy_match_presenter d ps (mkRat 7 10) with
      | none =>
          rw [hfm] at h
          exact List.mem_cons_of_mem _ (ih h)
      | some m2 =>
          rw [hfm] at h
          obtain ⟨rfl, rfl⟩ : d = c ∧ m2 = m := by simpa using h
          exact List.mem_cons_self d ds

/-- The raw match reported by text matching is either absent or one of
the candidates. -/
theorem parse_raw_match_cases (cands : List String)
    (ps : List PresenterRec) :
    (parse_presenter_from_candidates cands ps).raw_match = none ∨
      ∃ c ∈ cands,
        (parse_presenter_from_candidates cands ps).raw_match = some c := by
  cases cands with
  | nil => left; rfl
  | cons c0 cs =>
      cases hml : matchLoop ps (c0 :: cs) with
      | none =>
          right
          exact ⟨c0, by simp, by simp [parse_presenter_from_candidates, hml]⟩
      | some cm =>
          right
          obtain ⟨c, m⟩ := cm
          exact ⟨c, matchLoop_some_mem _ _ _ _ hml,
            by simp [parse_presenter_from_candidates, hml]⟩

/-- When the extractor never yields empty candidates (its contract),
Python truthiness of the reported raw match agrees with it being
non-None. -/
theorem truthy_raw_match_iff (cands : List String)
    (ps : List PresenterRec) (hc : "" ∉ cands) :
    truthyOpt (parse_presenter_from_candidates cands ps).raw_match = true ↔
      (parse_presenter_from_candidates cands ps).raw_match ≠ none := by
  rcases parse_raw_match_cases cands ps with h | ⟨c, hcm, h⟩
  · simp [h, truthyOpt]
  · have hne : c ≠ "" := fun he => hc (he ▸ hcm)
    simp [h, truthyOpt, hne]

/-- C4: LLM escalation happens exactly when `needs_validation` holds
and the raw match is non-null (given the extractor's no-empty-string
contract); failure or refusal of the collaborator leaves the
text-matcher result entirely unchanged; acceptance overwrites
presenter/match_type/confidence with the verified canonical name,
`"llm_validated"` and exactly 0.9; and any accepted name is a
directory canonical name that case-insensitively equals the stripped
response (the UNKNOWN sentinel, checked first, never reaches
verification). -/
theorem C4_llm_escalation_policy (cfg : Config) (ps : List PresenterRec)
    (env : DetectEnv) (t : String)
    (hd : cfg.DETECT_PRESENTER = true)
    (ht : env.transcribe = .ok t)
    (hu : env.unlinkFails = false)
    (hc : "" ∉ env.candidates) :
    (¬(needs_validation (parse_presenter_from_candidates env.candidates ps) = true ∧
        (parse_presenter_from_candidates env.candidates ps).raw_match ≠ none) →
      detect_presenter cfg ps env = textMatchResult ps env.candidates t) ∧
    (needs_validation (parse_presenter_from_candidates env.candidates ps) = true →
      (parse_presenter_from_candidates env.candidates ps).raw_match ≠ none →
      (validate_presenter_with_llm cfg env.llm ps = none →
        detect_presenter cfg ps env = textMatchResult ps env.candidates t) ∧
      (∀ v, validate_presenter_with_llm cfg env.llm ps = some v →
        detect_presenter cfg ps env =
          ⟨some v,
            (parse_presenter_from_candidates env.candidates ps).raw_match,
            (9 : ℚ) / 10, "llm_validated", some t⟩)) ∧
    ((cfg.LLM_VALIDATE_PRESENTER = false ∨ env.llm = .noPackage ∨
        env.llm = .noApiKey ∨ env.llm = .apiError) →
      validate_presenter_with_llm cfg env.llm ps = none) ∧
    (∀ v, validate_presenter_with_llm cfg env.llm ps = some v →
      ∃ resp p, env.llm = .response resp ∧ p ∈ ps ∧ p.name = v ∧
        pyLower (pyStrip resp) = pyLower p.name ∧
        (pyStrip resp == "UNKNOWN" ||
          pyUpper (pyStrip resp) == "UNKNOWN") = false) := by
  refine ⟨?_, ?_, ?_, ?_⟩
  · intro hno
    have hcond : (needs_validation (parse_presenter_from_candidates env.candidates ps) &&
        truthyOpt (parse_presenter_from_candidates env.candidates ps).raw_match) = false := by
      by_cases hnv : needs_validation (parse_presenter_from_candidates env.candidates ps) = true
      · have hrm : (parse_presenter_from_candidates env.candidates ps).raw_match = none := by
          by_contra hne
          exact hno ⟨hnv, hne⟩
        simp [hnv, hrm, truthyOpt]
      · simp [Bool.eq_false_iff.mpr hnv]
    simp [detect_presenter, hd, ht, hu, hcond, textMatchResult]
  · intro hnv hrm
    have htr : truthyOpt (parse_presenter_from_candidates env.candidates ps).raw_match = true :=
      (truthy_raw_match_iff env.candidates ps hc).2 hrm
    constructor
    · intro hval
      simp [detect_presenter, hd, ht, hu, hnv, htr, hval, textMatchResult]
    · intro v hval
      rw [q910]
      simp [detect_presenter, hd, ht, hu, hnv, htr, hval]
  · intro h
    rcases h with hb | ho | ho | ho
    · simp [validate_presenter_with_llm, hb]
    all_goals cases hb : cfg.LLM_VALIDATE_PRESENTER <;>
      simp [validate_presenter_with_llm, hb, ho]
  · intro v hval
    cases hb : cfg.LLM_VALIDATE_PRESENTER with
    | false => simp [validate_presenter_with_llm, hb] at hval
    | true =>
        cases hllm : env.llm with
        | noPackage => simp [validate_presenter_with_llm, hb, hllm] at hval
        | noApiKey => simp [validate_presenter_with_llm, hb, hllm] at hval
        | apiError => simp [validate_presenter_with_llm, hb, hllm] at hval
        | response resp =>
            simp only [validate_presenter_with_llm, hb, hllm,
              Bool.not_true, if_false] at hval
            by_cases hsent : (pyStrip resp == "UNKNOWN" ||
                pyUpper (pyStrip resp) == "UNKNOWN") = true
            · rw [if_pos hsent] at hval
              exact absurd hval (by simp)
            · rw [if_neg hsent] at hval
              cases hf : ps.find? (fun p => pyLower (pyStrip resp) == pyLower p.name) with
              | none => rw [hf] at hval; exact absurd hval (by simp)
              | some p =>
                  rw [hf] at hval
                  obtain rfl : p.name = v := by simpa using hval
                  refine ⟨resp, p, rfl, List.mem_of_find?_eq_some hf, rfl,
                    ?_, by simpa using hsent⟩
                  have := List.find?_some hf
                  simpa using this

/-- Witness for C4 at a concrete escalation that the collaborator
resolves: fuzzy confidence 0.8 < 0.85 triggers validation, the
response is re-verified against the directory and accepted at 0.9. -/
theorem C4_llm_escalation_policy_witness :
    detect_presenter ⟨true, true⟩ [⟨"Zeb Soanes", ["Zeb"]⟩]
        ⟨.ok "t", ["Zeb Sounds"], .response "Zeb Soanes", false⟩ =
      ⟨some "Zeb Soanes", some "Zeb Sounds", (9 : ℚ) / 10,
        "llm_validated", some "t"⟩ :=
  ((C4_llm_escalation_policy ⟨true, true⟩ [⟨"Zeb Soanes", ["Zeb"]⟩]
      ⟨.ok "t", ["Zeb Sounds"], .response "Zeb Soanes", false⟩ "t"
      rfl rfl rfl (by decide)).2.1 (by decide) (by decide)).2
    "Zeb Soanes" (by decide)

/-- C10: when LLM validation accepts a name, only presenter,
match_type and confidence change; raw_match still holds the originally
extracted text and transcript the transcription text. -/
theorem C10_llm_update_preserves_raw_match_and_transcript (cfg : Config)
    (ps : List PresenterRec) (env : DetectEnv) (t v : String)
    (hd : cfg.DETECT_PRESENTER = true)
    (ht : env.transcribe = .ok t)
    (hu : env.unlinkFails = false)
    (hnv : needs_validation (parse_presenter_from_candidates env.candidates ps) = true)
    (htr : truthyOpt (parse_presenter_from_candidates env.candidates ps).raw_match = true)
    (hval : validate_presenter_with_llm cfg env.llm ps = some v) :
    (detect_presenter cfg ps env).raw_match =
      (parse_presenter_from_candidates env.candidates ps).raw_match ∧
    (detect_presenter cfg ps env).transcript = some t ∧
    (detect_presenter cfg ps env).presenter = some v ∧
    (detect_presenter cfg ps env).match_type = "llm_validated" ∧
    (detect_presenter cfg ps env).confidence = (9 : ℚ) / 10 := by
  rw [q910]
  simp [detect_presenter, hd, ht, hu, hnv, htr, hval]

/-- Witness for C10: an unknown-match escalation accepted by the
collaborator keeps the misspelled extracted text in raw_match. -/
theorem C10_llm_update_preserves_raw_match_and_transcript_witness :
    (detect_presenter ⟨true, true⟩ [⟨"Kathy Clugston", []⟩]
        ⟨.ok "tr2", ["Jane Steel"], .response "kathy clugston", false⟩).raw_match =
      some "Jane Steel" ∧
    (detect_presenter ⟨true, true⟩ [⟨"Kathy Clugston", []⟩]
        ⟨.ok "tr2", ["Jane Steel"], .response "kathy clugston", false⟩).presenter =
      some "Kathy Clugston" :=
  ⟨(C10_llm_update_preserves_raw_match_and_transcript ⟨true, true⟩
      [⟨"Kathy Clugston", []⟩]
      ⟨.ok "tr2", ["Jane Steel"], .response "kathy clugston", false⟩
      "tr2" "Kathy Clugston" rfl rfl rfl (by decide) (by decide)
      (by decide)).1.trans (by decide),
    (C10_llm_update_preserves_raw_match_and_transcript ⟨true, true⟩
      [⟨"Kathy Clugston", []⟩]
      ⟨.ok "tr2", ["Jane Steel"], .response "kathy clugston", false⟩
      "tr2" "Kathy Clugston" rfl rfl rfl (by decide) (by decide)
      (by decide)).2.2.1⟩

/-- C6: per presenter the curator keeps only suitable entries resolved
to that presenter, and whenever a presenter has more than
`max_samples` eligible recordings, the curated list has exactly
`max_samples` entries, every one of which has a timestamp at least
that of every discarded eligible entry (ISO timestamp strings compare
lexicographically, which is chronological). -/
theorem C6_curator_recency_cap (results : List LabeledRec)
    (max_samples : Nat) (p : String) :
    (∀ r ∈ filter_suitable_recordings results max_samples p,
        r.suitable = true ∧ r.presenter = some p) ∧
    (max_samples < (eligibleFor results p).length →
      (filter_suitable_recordings results max_samples p).length = max_samples ∧
      ∀ a ∈ filter_suitable_recordings results max_samples p,
        ∀ b ∈ eligibleFor results p,
          b ∉ filter_suitable_recordings results max_samples p →
            b.timestamp ≤ a.timestamp) := by
  have htrans : ∀ a b c : LabeledRec,
      decide (b.timestamp ≤ a.timestamp) = true →
      decide (c.timestamp ≤ b.timestamp) = true →
      decide (c.timestamp ≤ a.timestamp) = true := by
    intro a b c h1 h2
    simp only [decide_eq_true_eq] at h1 h2 ⊢
    exact le_trans h2 h1
  have htotal : ∀ a b : LabeledRec,
      (decide (b.timestamp ≤ a.timestamp) ||
        decide (a.timestamp ≤ b.timestamp)) = true := by
    intro a b
    simpa [Bool.or_eq_true, decide_eq_true_eq] using
      le_total b.timestamp a.timestamp
  constructor
  · intro r hr
    have hmem : r ∈ eligibleFor results p := by
      have h1 : r ∈ (eligibleFor results p).mergeSort
          (fun a b => decide (b.timestamp ≤ a.timestamp)) :=
        List.mem_of_mem_take hr
      exact (List.mem_mergeSort).1 h1
    have := (List.mem_filter.1 hmem).2
    cases hp : r.presenter with
    | none => rw [hp] at this; simp at this
    | some q =>
        rw [hp] at this
        simp only [Bool.and_eq_true, beq_iff_eq] at this
        exact ⟨this.1, congrArg some this.2.2⟩
  · intro hlen
    constructor
    · simp only [filter_suitable_recordings, List.length_take,
        List.length_mergeSort]
      exact Nat.min_eq_left (Nat.le_of_lt hlen)
    · intro a ha b hb hbn
      have hsorted :
          ((eligibleFor results p).mergeSort
            (fun a b => decide (b.timestamp ≤ a.timestamp))).Pairwise
            (fun a b => decide (b.timestamp ≤ a.timestamp) = true) :=
        List.sorted_mergeSort htrans htotal (eligibleFor results p)
      have hsplit := List.take_append_drop max_samples
        ((eligibleFor results p).mergeSort
          (fun a b => decide (b.timestamp ≤ a.timestamp)))
      rw [← hsplit] at hsorted
      have hcross := (List.pairwise_append.1 hsorted).2.2
      have hbS : b ∈ (eligibleFor results p).mergeSort
          (fun a b => decide (b.timestamp ≤ a.timestamp)) :=
        (List.mem_mergeSort).2 hb
      rw [← hsplit] at hbS
      rcases List.mem_append.1 hbS with hbt | hbd
      · exact absurd hbt hbn
      · exact of_decide_eq_true (hcross a ha b hbd)

/-- Witness for C6: three eligible recordings, cap 2. -/
theorem C6_curator_recency_cap_witness :
    (filter_suitable_recordings
        [⟨some "X", true, "2024-01-01"⟩, ⟨some "X", true, "2024-01-02"⟩,
          ⟨some "X", true, "2024-01-03"⟩] 2 "X").length = 2 ∧
    ∀ a ∈ filter_suitable_recordings
        [⟨some "X", true, "2024-01-01"⟩, ⟨some "X", true, "2024-01-02"⟩,
          ⟨some "X", true, "2024-01-03"⟩] 2 "X",
      ∀ b ∈ eligibleFor
          [⟨some "X", true, "2024-01-01"⟩, ⟨some "X", true, "2024-01-02"⟩,
            ⟨some "X", true, "2024-01-03"⟩] "X",
        b ∉ filter_suitable_recordings
            [⟨some "X", true, "2024-01-01"⟩, ⟨some "X", true, "2024-01-02"⟩,
              ⟨some "X", true, "2024-01-03"⟩] 2 "X" →
          b.timestamp ≤ a.timestamp :=
  (C6_curator_recency_cap
      [⟨some "X", true, "2024-01-01"⟩, ⟨some "X", true, "2024-01-02"⟩,
        ⟨some "X", true, "2024-01-03"⟩] 2 "X").2 (by decide)

/-! ### Real-arithmetic helper lemmas -/

/-- Dotting a vector scaled by `1/c` with itself gives the sum of
squares over `c * c` (also when `c = 0`, with Lean's `x / 0 = 0`). -/
theorem dot_map_div_self (e : List ℝ) (c : ℝ) :
    dot (e.map (fun x => x / c)) (e.map (fun x => x / c)) =
      sumSq e / (c * c) := by
  induction e with
  | nil => simp [dot, sumSq]
  | cons x xs ih =>
      simp only [dot, sumSq, List.map_cons, List.zipWith_cons_cons,
        List.sum_cons] at ih ⊢
      rw [div_mul_div_comm, ih, div_add_div_same]

/-- Sum of squares is nonnegative. -/
theorem sumSq_nonneg (e : List ℝ) : 0 ≤ sumSq e := by
  apply List.sum_nonneg
  intro x hx
  obtain ⟨y, _, rfl⟩ := List.mem_map.1 hx
  exact mul_self_nonneg y

/-- The list dot product as a `Finset.range` sum over the common
prefix. -/
theorem dot_eq_sum (a b : List ℝ) :
    dot a b = ∑ i ∈ Finset.range (min a.length b.length),
      a.getD i 0 * b.getD i 0 := by
  induction a generalizing b with
  | nil => simp [dot]
  | cons x xs ih =>
      cases b with
      | nil => simp [dot]
      | cons y ys =>
          simp only [dot, List.zipWith_cons_cons, List.sum_cons,
            List.length_cons, Nat.succ_min_succ, Finset.sum_range_succ',
            List.getD_cons_succ, List.getD_cons_zero]
          rw [add_comm]
          congr 1
          simpa [dot] using ih ys

/-- The sum of squares as a `Finset.range` sum. -/
theorem sumSq_eq_sum (e : List ℝ) :
    sumSq e = ∑ i ∈ Finset.range e.length, e.getD i 0 ^ 2 := by
  have h : dot e e = sumSq e := by
    induction e with
    | nil => simp [dot, sumSq]
    | cons x xs ih =>
        simp only [dot, sumSq, List.zipWith_cons_cons, List.sum_cons,
          List.map_cons] at ih ⊢
        rw [ih]
  rw [← h, dot_eq_sum]
  simp [sq]

/-- Cauchy–Schwarz for the list dot product of equal-length vectors. -/
theorem abs_dot_le (a b : List ℝ) (h : a.length = b.length) :
    |dot a b| ≤ l2norm a * l2norm b := by
  have hmin : min a.length b.length = a.length := by omega
  have hupper : dot a b ≤ l2norm a * l2norm b := by
    rw [dot_eq_sum, hmin, l2norm, l2norm, sumSq_eq_sum, sumSq_eq_sum, ← h]
    simpa using Real.sum_mul_le_sqrt_mul_sqrt (Finset.range a.length)
      (fun i => a.getD i 0) (fun i => b.getD i 0)
  have hlower : -(l2norm a * l2norm b) ≤ dot a b := by
    have hneg : dot (a.map (fun x => -x)) b = -dot a b := by
      clear hupper hmin h
      induction a generalizing b with
      | nil => simp [dot]
      | cons x xs ih =>
          cases b with
          | nil => simp [dot]
          | cons y ys =>
              simp only [dot, List.map_cons, List.zipWith_cons_cons,
                List.sum_cons] at ih ⊢
              rw [ih ys]
              ring
    have hlen : (a.map (fun x => -x)).length = b.length := by simpa using h
    have hn := by
      rw [dot_eq_sum, show min (a.map (fun x => -x)).length b.length =
        a.length by simpa using hmin] at hneg
      exact hneg
    have := Real.sum_mul_le_sqrt_mul_sqrt (Finset.range a.length)
      (fun i => (a.map (fun x => -x)).getD i 0) (fun i => b.getD i 0)
    rw [hn] at this
    have hsq : ∑ i ∈ Finset.range a.length,
        ((a.map (fun x => -x)).getD i 0) ^ 2 =
        ∑ i ∈ Finset.range a.length, a.getD i 0 ^ 2 := by
      apply Finset.sum_congr rfl
      intro i hi
      rcases Nat.lt_or_ge i a.length with hlt | hge
      · rw [List.getD_eq_getElem?_getD, List.getElem?_map,
          List.getElem?_eq_getElem hlt]
        simp [List.getD_eq_getElem?_getD, List.getElem?_eq_getElem hlt]
      · rw [List.getD_eq_getElem?_getD, List.getElem?_map,
          List.getElem?_eq_none (by simpa using hge)]
        simp [List.getD_eq_getElem?_getD,
          List.getElem?_eq_none (by simpa using hge)]
    rw [hsq] at this
    have hfin : -dot a b ≤ l2norm a * l2norm b := by
      rw [l2norm, l2norm, sumSq_eq_sum, sumSq_eq_sum, ← h]
      simpa using this
    linarith
  exact abs_le.2 ⟨hlower, hupper⟩

/-- C7 counterexample: the validator's unclamped cosine produces a
negative reported between-speaker similarity, contradicting the claim
that every reported similarity lies in `[0, 1]`. -/
theorem C7_counterexample_negative_validator_similarity :
    (validate_database [("A", [[1]]), ("B", [[-1]])]).between_speaker_similarity =
      [("A vs B", validateCosine [1] [-1])] ∧
    validateCosine [(1 : ℝ)] [(-1 : ℝ)] < 0 := by
  have h1 : sumSq [(1 : ℝ)] = 1 := by simp [sumSq]
  have h2 : sumSq [(-1 : ℝ)] = 1 := by simp [sumSq]
  have h3 : l2norm [(1 : ℝ)] = 1 := by rw [l2norm, h1, Real.sqrt_one]
  have h4 : l2norm [(-1 : ℝ)] = 1 := by rw [l2norm, h2, Real.sqrt_one]
  have hd : dot [(1 : ℝ)] [(-1 : ℝ)] = -1 := by simp [dot]
  constructor
  · simp [validate_database, betweenEntries, unorderedPairs]
  · rw [validateCosine, hd, h3, h4]
    norm_num

/-- Elements of the clamped-cosine list bound `listMax` into `[0,1]`. -/
theorem listMax_bounds (l : List ℝ) (h : ∀ x ∈ l, 0 ≤ x ∧ x ≤ 1)
    (hne : l ≠ []) : 0 ≤ listMax l ∧ listMax l ≤ 1 := by
  cases l with
  | nil => exact absurd rfl hne
  | cons x xs =>
      have hgen : ∀ (ys : List ℝ) (acc : ℝ), 0 ≤ acc → acc ≤ 1 →
          (∀ y ∈ ys, 0 ≤ y ∧ y ≤ 1) →
          0 ≤ ys.foldl max acc ∧ ys.foldl max acc ≤ 1 := by
        intro ys
        induction ys with
        | nil => intro acc h0 h1 _; exact ⟨h0, h1⟩
        | cons y ys ih =>
            intro acc h0 h1 hy
            simp only [List.foldl_cons]
            exact ih (max acc y) (le_trans h0 (le_max_left _ _))
              (max_le h1 (hy y (by simp)).2)
              (fun z hz => hy z (by simp [hz]))
      exact hgen xs x (h x (by simp)).1 (h x (by simp)).2
        (fun z hz => h z (by simp [hz]))

/-- Same bounds for `listMean`. -/
theorem listMean_bounds (l : List ℝ) (h : ∀ x ∈ l, 0 ≤ x ∧ x ≤ 1)
    (hne : l ≠ []) : 0 ≤ listMean l ∧ listMean l ≤ 1 := by
  have hlen : 0 < (l.length : ℝ) := by
    have : l.length ≠ 0 := fun h0 => hne (List.length_eq_zero.1 h0)
    positivity
  have hsum0 : 0 ≤ l.sum := List.sum_nonneg (fun x hx => (h x hx).1)
  have hsum1 : l.sum ≤ l.length := by
    clear hne hlen hsum0
    induction l with
    | nil => simp
    | cons x xs ih =>
        simp only [List.sum_cons, List.length_cons]
        push_cast
        have := ih (fun z hz => h z (by simp [hz]))
        have hx := (h x (by simp)).2
        linarith
  constructor
  · exact div_nonneg hsum0 (le_of_lt hlen)
  · rw [listMean, div_le_one hlen]
    exact hsum1

/-- Bounds for the ties-to-even integer rounding. -/
theorem roundHalfEven_bounds (y : ℝ) (n : ℤ) (h0 : 0 ≤ y) (h1 : y ≤ n) :
    0 ≤ roundHalfEven y ∧ roundHalfEven y ≤ n := by
  have hf0 : (0 : ℤ) ≤ ⌊y⌋ := Int.floor_nonneg.2 h0
  have hfn : ⌊y⌋ ≤ n := by
    have := Int.floor_le_floor h1
    simpa using this
  have hsucc : (1 : ℝ) / 2 ≤ y - ⌊y⌋ → ⌊y⌋ + 1 ≤ n := by
    intro hlt
    rcases eq_or_lt_of_le hfn with heq | hlt2
    · exfalso
      have hy : y - (⌊y⌋ : ℝ) ≤ 0 := by
        rw [heq]
        linarith
      linarith
    · omega
  unfold roundHalfEven
  split_ifs with hc1 hc2 hc3
  · exact ⟨hf0, hfn⟩
  · exact ⟨by omega, hsucc (le_of_lt hc2)⟩
  · exact ⟨hf0, hfn⟩
  · have htie : (1 : ℝ) / 2 ≤ y - ⌊y⌋ := le_of_not_lt hc1
    exact ⟨by omega, hsucc htie⟩

/-- `round(x, 4)` keeps values of `[0, 1]` inside `[0, 1]`. -/
theorem pyRound4_bounds (x : ℝ) (h0 : 0 ≤ x) (h1 : x ≤ 1) :
    0 ≤ pyRound4 x ∧ pyRound4 x ≤ 1 := by
  have hb := roundHalfEven_bounds (x * 10 ^ 4) (10 ^ 4)
    (by positivity) (by push_cast; nlinarith)
  constructor
  · apply div_nonneg _ (by norm_num)
    exact_mod_cast hb.1
  · rw [pyRound4, div_le_one (by norm_num)]
    have := hb.2
    calc (roundHalfEven (x * 10 ^ 4) : ℝ) ≤ ((10 ^ 4 : ℤ) : ℝ) := by
          exact_mod_cast this
      _ = 10 ^ 4 := by norm_num

/-- Rank stamping only changes the rank field. -/
theorem addRanks_mem (i : ℕ) (l : List BioMatch) (m : BioMatch)
    (h : m ∈ addRanks i l) :
    ∃ m' ∈ l, m.similarity = m'.similarity ∧
      m.avg_similarity = m'.avg_similarity := by
  induction l generalizing i with
  | nil => exact absurd h (by simp [addRanks])
  | cons x xs ih =>
      simp only [addRanks, List.mem_cons] at h
      rcases h with rfl | h
      · exact ⟨x, by simp⟩
      · obtain ⟨m', hm', he⟩ := ih (i + 1) h
        exact ⟨m', by simp [hm'], he⟩

/-- C7 (amended): the clamped cosine of speaker_recognition.py and
every similarity and mean reported by `compare_against_database` lie in
`[0, 1]`; the *validator's* inner cosine is not clamped — it lies in
the open interval `(-1, 1)` and can be negative (see the
counterexample). -/
theorem C7_reported_similarity_ranges (e1 e2 q : List ℝ)
    (db : List (String × List (List ℝ))) (h : e1.length = e2.length) :
    (0 ≤ cosine_similarity e1 e2 ∧ cosine_similarity e1 e2 ≤ 1) ∧
    (∀ m ∈ compare_against_database q db,
      (0 ≤ m.similarity ∧ m.similarity ≤ 1) ∧
      (0 ≤ m.avg_similarity ∧ m.avg_similarity ≤ 1)) ∧
    (-1 < validateCosine e1 e2 ∧ validateCosine e1 e2 < 1) := by
  have hclamp : ∀ a b : List ℝ,
      0 ≤ cosine_similarity a b ∧ cosine_similarity a b ≤ 1 := by
    intro a b
    refine ⟨le_max_left 0 _, max_le (by norm_num) (min_le_left 1 _)⟩
  refine ⟨hclamp e1 e2, ?_, ?_⟩
  · intro m hm
    obtain ⟨m', hm', hsim, havg⟩ := addRanks_mem 1 _ m hm
    have hm'' : m' ∈ (db.map (fun entry =>
        let sims := entry.2.map (fun ref => cosine_similarity q ref)
        let best := if sims.isEmpty then 0 else listMax sims
        let avg := if sims.isEmpty then 0 else listMean sims
        ({ name := entry.1
           similarity := pyRound4 best
           avg_similarity := pyRound4 avg
           num_references := sims.length
           rank := 0 } : BioMatch))) := by
      have := (List.mem_mergeSort).1 hm'
      simpa [compare_against_database] using this
    obtain ⟨entry, _, rfl⟩ := List.mem_map.1 hm''
    rw [hsim, havg]
    have hsimbounds : ∀ x ∈ entry.2.map (fun ref => cosine_similarity q ref),
        0 ≤ x ∧ x ≤ 1 := by
      intro x hx
      obtain ⟨ref, _, rfl⟩ := List.mem_map.1 hx
      exact hclamp q ref
    by_cases hempty : (entry.2.map (fun ref => cosine_similarity q ref)).isEmpty
    · simp only [hempty, if_true]
      exact ⟨pyRound4_bounds 0 le_rfl (by norm_num),
        pyRound4_bounds 0 le_rfl (by norm_num)⟩
    · have hne : entry.2.map (fun ref => cosine_similarity q ref) ≠ [] := by
        simpa [List.isEmpty_iff] using hempty
      simp only [hempty, if_false]
      have hmax := listMax_bounds _ hsimbounds hne
      have hmean := listMean_bounds _ hsimbounds hne
      exact ⟨pyRound4_bounds _ hmax.1 hmax.2,
        pyRound4_bounds _ hmean.1 hmean.2⟩
  · have habs := abs_dot_le e1 e2 h
    have hnn : 0 ≤ l2norm e1 * l2norm e2 :=
      mul_nonneg (Real.sqrt_nonneg _) (Real.sqrt_nonneg _)
    have hpos : 0 < l2norm e1 * l2norm e2 + 1 / 10 ^ 8 := by positivity
    constructor
    · rw [validateCosine, lt_div_iff₀ hpos]
      have := neg_abs_le (dot e1 e2)
      nlinarith
    · rw [validateCosine, div_lt_one hpos]
      have := le_abs_self (dot e1 e2)
      nlinarith

/-- Witness for C7 (amended) at concrete vectors and database. -/
theorem C7_reported_similarity_ranges_witness :
    (0 ≤ cosine_similarity [(1 : ℝ)] [(2 : ℝ)] ∧
      cosine_similarity [(1 : ℝ)] [(2 : ℝ)] ≤ 1) ∧
    (∀ m ∈ compare_against_database [(0 : ℝ)] [("A", [[0]])],
      (0 ≤ m.similarity ∧ m.similarity ≤ 1) ∧
      (0 ≤ m.avg_similarity ∧ m.avg_similarity ≤ 1)) ∧
    (-1 < validateCosine [(1 : ℝ)] [(2 : ℝ)] ∧
      validateCosine [(1 : ℝ)] [(2 : ℝ)] < 1) :=
  C7_reported_similarity_ranges [1] [2] [0] [("A", [[0]])] rfl

/-- C9 counterexample: for the nonzero vector
`[3e-8, 4e-8]` (norm `5e-8`, comparable to the `1e-8` guard), the
self-similarity is `25/36 ≈ 0.69`, far outside any floating tolerance
of `1.0`. -/
theorem C9_counterexample_tiny_vector :
    sumSq [(3 : ℝ) / 10 ^ 8, (4 : ℝ) / 10 ^ 8] ≠ 0 ∧
    cosine_similarity [(3 : ℝ) / 10 ^ 8, (4 : ℝ) / 10 ^ 8]
      [(3 : ℝ) / 10 ^ 8, (4 : ℝ) / 10 ^ 8] = 25 / 36 ∧
    |(25 : ℝ) / 36 - 1| > 1 / 4 := by
  have hs : sumSq [(3 : ℝ) / 10 ^ 8, (4 : ℝ) / 10 ^ 8] = 25 / 10 ^ 16 := by
    simp only [sumSq, List.map_cons, List.map_nil, List.sum_cons,
      List.sum_nil]
    norm_num
  have hl : l2norm [(3 : ℝ) / 10 ^ 8, (4 : ℝ) / 10 ^ 8] = 5 / 10 ^ 8 := by
    rw [l2norm, hs, show (25 : ℝ) / 10 ^ 16 = (5 / 10 ^ 8) ^ 2 by norm_num,
      Real.sqrt_sq (by norm_num)]
  refine ⟨by rw [hs]; norm_num, ?_, by rw [abs_of_nonpos (by norm_num)]; norm_num⟩
  rw [cosine_similarity]
  simp only [dot_map_div_self, hs, hl]
  rw [show (25 : ℝ) / 10 ^ 16 / ((5 / 10 ^ 8 + 1 / 10 ^ 8) * (5 / 10 ^ 8 + 1 / 10 ^ 8)) =
    25 / 36 by norm_num]
  rw [min_eq_right (by norm_num), max_eq_right (by norm_num)]

/-- C9 (amended): the self-similarity equals 1.0 only up to the `1e-8`
norm guard: for every vector of norm at least `0.1` (in particular all
realistic embeddings; a vector with `sumSq e ≥ 1/100`), the
self-similarity lies in `[1 - 1e-6, 1]`, i.e. equals 1.0 within
floating tolerance; tiny nonzero vectors violate this (see the
counterexample). -/
theorem C9_self_similarity_near_one (e : List ℝ)
    (h : (1 : ℝ) / 100 ≤ sumSq e) :
    1 - 1 / 10 ^ 6 ≤ cosine_similarity e e ∧ cosine_similarity e e ≤ 1 := by
  have hnn : 0 ≤ sumSq e := sumSq_nonneg e
  have hr : (1 : ℝ) / 10 ≤ l2norm e := by
    rw [l2norm, show (1 : ℝ) / 10 = Real.sqrt ((1 : ℝ) / 100) by
      rw [show (1 : ℝ) / 100 = (1 / 10 : ℝ) ^ 2 by norm_num,
        Real.sqrt_sq (by norm_num)]]
    exact Real.sqrt_le_sqrt h
  have hrsq : l2norm e ^ 2 = sumSq e := Real.sq_sqrt hnn
  set r := l2norm e with hrdef
  have hrpos : 0 < r := lt_of_lt_of_le (by norm_num) hr
  have hcpos : 0 < (r + 1 / 10 ^ 8) * (r + 1 / 10 ^ 8) := by positivity
  have hval : dot (e.map (fun x => x / (r + 1 / 10 ^ 8)))
      (e.map (fun x => x / (r + 1 / 10 ^ 8))) =
      sumSq e / ((r + 1 / 10 ^ 8) * (r + 1 / 10 ^ 8)) :=
    dot_map_div_self e (r + 1 / 10 ^ 8)
  have hle1 : sumSq e / ((r + 1 / 10 ^ 8) * (r + 1 / 10 ^ 8)) ≤ 1 := by
    rw [div_le_one hcpos, ← hrsq]
    nlinarith
  have hge : 1 - 1 / 10 ^ 6 ≤
      sumSq e / ((r + 1 / 10 ^ 8) * (r + 1 / 10 ^ 8)) := by
    rw [le_div_iff₀ hcpos, ← hrsq]
    nlinarith
  rw [cosine_similarity]
  simp only [hval]
  rw [min_eq_right hle1, max_eq_right (by linarith)]
  exact ⟨hge, hle1⟩

/-- Witness for C9 (amended) at the vector `[3, 4]` of norm 5. -/
theorem C9_self_similarity_near_one_witness :
    (1 : ℝ) / 100 ≤ sumSq [(3 : ℝ), 4] ∧
    (1 - 1 / 10 ^ 6 ≤ cosine_similarity [(3 : ℝ), 4] [(3 : ℝ), 4] ∧
      cosine_similarity [(3 : ℝ), 4] [(3 : ℝ), 4] ≤ 1) :=
  ⟨by simp [sumSq]; norm_num,
    C9_self_similarity_near_one [3, 4] (by simp [sumSq]; norm_num)⟩

/-! ### Structure of the validator report (C8) -/

/-- A `filterMap` whose function always succeeds is a `map`. -/
theorem filterMap_eq_map_of_forall {α β : Type _} (f : α → Option β)
    (g : α → β) (l : List α) (h : ∀ x ∈ l, f x = some (g x)) :
    l.filterMap f = l.map g := by
  induction l with
  | nil => rfl
  | cons x xs ih =>
      rw [List.filterMap_cons, h x (by simp), List.map_cons,
        ih (fun y hy => h y (by simp [hy]))]

/-- Both components of an unordered pair come from the list. -/
theorem unorderedPairs_mem {α : Type _} {l : List α} {pr : α × α}
    (h : pr ∈ unorderedPairs l) : pr.1 ∈ l ∧ pr.2 ∈ l := by
  induction l with
  | nil => simp [unorderedPairs] at h
  | cons x xs ih =>
      simp only [unorderedPairs, List.mem_append, List.mem_map] at h
      rcases h with ⟨y, hy, rfl⟩ | h
      · exact ⟨by simp, by simp [hy]⟩
      · obtain ⟨h1, h2⟩ := ih h
        exact ⟨by simp [h1], by simp [h2]⟩

/-- The `i < j` double loop visits each unordered pair once. -/
theorem unorderedPairs_length {α : Type _} (l : List α) :
    (unorderedPairs l).length = l.length.choose 2 := by
  induction l with
  | nil => simp [unorderedPairs]
  | cons x xs ih =>
      simp only [unorderedPairs, List.length_append, List.length_map, ih,
        List.length_cons]
      rw [Nat.choose_succ_succ, Nat.choose_one_right]

/-- At least two embeddings yield at least one pairwise similarity. -/
theorem pairwiseSims_not_empty (embs : List (List ℝ))
    (h : 2 ≤ embs.length) : (pairwiseSims embs).isEmpty = false := by
  have hlen : (pairwiseSims embs).length = embs.length.choose 2 := by
    rw [pairwiseSims, List.length_map, unorderedPairs_length]
  have hpos : 0 < embs.length.choose 2 := Nat.choose_pos h
  rcases hv : pairwiseSims embs with _ | ⟨a, as⟩
  · rw [hv] at hlen
    simp at hlen
    omega
  · rfl

/-- Every key reported in the within-speaker section is a database
key. -/
theorem withinEntries_key_mem {db : List (String × List (List ℝ))}
    {p : String} {st : WithinStats} (h : (p, st) ∈ withinEntries db) :
    p ∈ db.map Prod.fst := by
  induction db with
  | nil => simp [withinEntries] at h
  | cons head rest ih =>
      obtain ⟨q, es⟩ := head
      simp only [withinEntries] at h
      split_ifs at h with h1 h2
      · exact List.mem_cons_of_mem _ (ih h)
      · exact List.mem_cons_of_mem _ (ih h)
      · rcases List.mem_cons.1 h with hh | ht
        · injection hh with hp _
          simp [hp]
        · exact List.mem_cons_of_mem _ (ih ht)

/-- A presenter with at least two embeddings gets its pairwise summary
into the within-speaker section. -/
theorem withinEntries_mem_of_two_le (db : List (String × List (List ℝ)))
    (p : String) (embs : List (List ℝ)) (hmem : (p, embs) ∈ db)
    (hlen : 2 ≤ embs.length) :
    (p, (⟨listMean (pairwiseSims embs), listStd (pairwiseSims embs),
      listMin (pairwiseSims embs), listMax (pairwiseSims embs),
      (pairwiseSims embs).length⟩ : WithinStats)) ∈ withinEntries db := by
  induction db with
  | nil => simp at hmem
  | cons head rest ih =>
      obtain ⟨q, es⟩ := head
      rcases List.mem_cons.1 hmem with heq | htail
      · injection heq with h1 h2
        subst h1
        subst h2
        have hnot : ¬ embs.length < 2 := by omega
        simp only [withinEntries, hnot, if_false,
          pairwiseSims_not_empty embs hlen]
        exact List.mem_cons_self _ _
      · have hrec := ih htail
        simp only [withinEntries]
        split_ifs
        · exact hrec
        · exact hrec
        · exact List.mem_cons_of_mem _ hrec

/-- Under unique database keys, any within-speaker entry for `p`
forces `p`'s embedding list to have at least two elements. -/
theorem two_le_of_withinEntries_mem (db : List (String × List (List ℝ)))
    (hkeys : (db.map Prod.fst).Nodup) (p : String)
    (embs : List (List ℝ)) (st : WithinStats) (hmem : (p, embs) ∈ db)
    (hst : (p, st) ∈ withinEntries db) : 2 ≤ embs.length := by
  induction db with
  | nil => simp at hmem
  | cons head rest ih =>
      obtain ⟨q, es⟩ := head
      have hkeys' : (rest.map Prod.fst).Nodup := (List.nodup_cons.1 hkeys).2
      have hqnot : q ∉ rest.map Prod.fst := (List.nodup_cons.1 hkeys).1
      simp only [withinEntries] at hst
      rcases List.mem_cons.1 hmem with heq | htail
      · injection heq with h1 h2
        subst h1
        subst h2
        split_ifs at hst with h1 h2
        · exact absurd (withinEntries_key_mem hst) hqnot
        · omega
        · omega
      · have hpin : p ∈ rest.map Prod.fst :=
          List.mem_map.2 ⟨(p, embs), htail, rfl⟩
        split_ifs at hst with h1 h2
        · exact ih hkeys' htail hst
        · exact ih hkeys' htail hst
        · rcases List.mem_cons.1 hst with hh | ht
          · injection hh with hp _
            subst hp
            exact absurd hpin hqnot
          · exact ih hkeys' htail ht

/-- The between-speaker section under the database invariant that no
embedding list is empty: one entry per unordered pair, computed from
the pairs' first embeddings. -/
theorem betweenEntries_eq_map (db : List (String × List (List ℝ)))
    (hne : ∀ entry ∈ db, entry.2 ≠ []) :
    betweenEntries db = (unorderedPairs db).map (fun pr =>
      (pr.1.1 ++ " vs " ++ pr.2.1,
        validateCosine pr.1.2.headI pr.2.2.headI)) := by
  rw [betweenEntries]
  apply filterMap_eq_map_of_forall
  intro pr hpr
  obtain ⟨h1, h2⟩ := unorderedPairs_mem hpr
  have hne1 := hne pr.1 h1
  have hne2 := hne pr.2 h2
  cases hc1 : pr.1.2 with
  | nil => exact absurd hc1 hne1
  | cons a as =>
      cases hc2 : pr.2.2 with
      | nil => exact absurd hc2 hne2
      | cons b bs => simp [hc1, hc2]

/-- C8: the validator reports a within-speaker entry (the pairwise
mean/std/min/max/count summary) exactly for presenters with at least
two embeddings — one embedding yields no entry — and, under the
database invariant that embedding lists are nonempty, exactly one
between-speaker entry per unordered presenter pair, computed from the
two first embeddings, with the aggregate mean/std present whenever the
database has at least two presenters. -/
theorem C8_validator_report_structure (db : List (String × List (List ℝ)))
    (hkeys : (db.map Prod.fst).Nodup)
    (hne : ∀ entry ∈ db, entry.2 ≠ []) :
    (∀ p embs, (p, embs) ∈ db →
      (((p, (⟨listMean (pairwiseSims embs), listStd (pairwiseSims embs),
          listMin (pairwiseSims embs), listMax (pairwiseSims embs),
          (pairwiseSims embs).length⟩ : WithinStats)) ∈
          (validate_database db).within_speaker_similarity) ↔
        2 ≤ embs.length) ∧
      (∀ st, (p, st) ∈ (validate_database db).within_speaker_similarity →
        2 ≤ embs.length)) ∧
    (validate_database db).between_speaker_similarity =
      (unorderedPairs db).map (fun pr =>
        (pr.1.1 ++ " vs " ++ pr.2.1,
          validateCosine pr.1.2.headI pr.2.2.headI)) ∧
    (validate_database db).between_speaker_similarity.length =
      db.length.choose 2 ∧
    (2 ≤ db.length →
      (validate_database db).between_speaker_mean.isSome = true ∧
      (validate_database db).between_speaker_std.isSome = true) := by
  have hwithin : (validate_database db).within_speaker_similarity =
      withinEntries db := rfl
  have hbetw : (validate_database db).between_speaker_similarity =
      betweenEntries db := rfl
  have hmap := betweenEntries_eq_map db hne
  have hblen : (betweenEntries db).length = db.length.choose 2 := by
    rw [hmap, List.length_map, unorderedPairs_length]
  have hbne : 2 ≤ db.length → (betweenEntries db).isEmpty = false := by
    intro h2
    have hpos : 0 < db.length.choose 2 := Nat.choose_pos h2
    rcases hv : betweenEntries db with _ | ⟨a, as⟩
    · rw [hv] at hblen
      simp at hblen
      omega
    · rfl
  refine ⟨?_, by rw [hbetw, hmap], by rw [hbetw, hblen], ?_⟩
  · intro p embs hmem
    constructor
    · rw [hwithin]
      constructor
      · intro hst
        exact two_le_of_withinEntries_mem db hkeys p embs _ hmem hst
      · intro hlen
        exact withinEntries_mem_of_two_le db p embs hmem hlen
    · rw [hwithin]
      intro st hst
      exact two_le_of_withinEntries_mem db hkeys p embs st hmem hst
  · intro h2
    constructor
    · show (if (betweenEntries db).isEmpty then none else
        some (listMean ((betweenEntries db).map (fun entry => entry.2)))).isSome = true
      rw [hbne h2]
      rfl
    · show (if (betweenEntries db).isEmpty then none else
        some (listStd ((betweenEntries db).map (fun entry => entry.2)))).isSome = true
      rw [hbne h2]
      rfl

/-- Witness for C8: presenter A with two embeddings, presenter B with
one. -/
theorem C8_validator_report_structure_witness :
    ((validate_database [("A", [[1], [1]]), ("B", [[1]])]).between_speaker_similarity.length =
      ([("A", [[1], [1]]), ("B", [[1]])] :
        List (String × List (List ℝ))).length.choose 2) ∧
    ((validate_database [("A", [[1], [1]]), ("B", [[1]])]).between_speaker_mean.isSome = true) ∧
    (∀ st, ("B", st) ∈
        (validate_database [("A", [[1], [1]]), ("B", [[1]])]).within_speaker_similarity →
      2 ≤ ([[(1 : ℝ)]] : List (List ℝ)).length) :=
  have hkeys : (([("A", [[1], [1]]), ("B", [[1]])] :
      List (String × List (List ℝ))).map Prod.fst).Nodup := by
    simp
  have hne : ∀ entry ∈ ([("A", [[1], [1]]), ("B", [[1]])] :
      List (String × List (List ℝ))), entry.2 ≠ [] := by
    rintro e he
    simp only [List.mem_cons, List.not_mem_nil, or_false] at he
    rcases he with rfl | rfl <;> simp
  ⟨(C8_validator_report_structure _ hkeys hne).2.2.1,
    ((C8_validator_report_structure _ hkeys hne).2.2.2 (by simp)).1,
    ((C8_validator_report_structure _ hkeys hne).1 "B" [[1]] (by simp)).2⟩

end ShippingForecast
